import Mathlib

set_option autoImplicit false

/-!
Shallow embedding of the libpuz crossword library (cksum.c, puzzle.c, load.c,
puz.h).  Byte buffers are `List Nat` with every element a byte value; 16-bit
accumulators are naturals reduced mod 65536 exactly where the C code wraps.
A C string value is modelled as the list of bytes stored at the pointer; the
terminating NUL is not part of the list unless the code manipulates it
explicitly.  `strlen` is modelled by `cstrlen` (length of the prefix before
the first zero byte), so strings holding interior zero bytes behave as in C.
-/

namespace Puz

/-- Length of the prefix up to the first NUL byte: the model of `strlen`
(`Sstrlen` in puz.h). -/
def cstrlen (s : List Nat) : Nat := (s.takeWhile (fun b => b != 0)).length

/-- The bytes `strlen` sees: content up to the first NUL. -/
def str_to_nul (s : List Nat) : List Nat := s.takeWhile (fun b => b != 0)

/-- The `Sstrlen s + 1` bytes starting at a string: content up to the first
NUL, then the NUL itself.  Used by the checksum code for the
title/author/copyright/notes pieces. -/
def str_with_nul (s : List Nat) : List Nat := s.takeWhile (fun b => b != 0) ++ [0]

/-- One step of the PUZ rotate-and-sum checksum (body of the loop in
`puz_cksum_region`, cksum.c): rotate the 16-bit accumulator right one bit,
OR-ing in 0x8000 when the low bit was set, then add the byte mod 2^16. -/
def cksum_step (cksum b : Nat) : Nat :=
  ((if cksum % 2 = 1 then cksum / 2 + 0x8000 else cksum / 2) + b) % 65536

/-- Model of `puz_cksum_region(base, len, cksum)` from cksum.c, with the region of
`len` bytes passed as the list itself. -/
def puz_cksum_region (base : List Nat) (cksum : Nat) : Nat :=
  base.foldl cksum_step cksum

/-- Model of `le_16` reader macro from puz.h: little-endian 16-bit value at an offset. -/
def le_16 (l : List Nat) (off : Nat) : Nat :=
  l.getD (off + 1) 0 * 256 + l.getD off 0

/-- Model of `w_le_16` writer macro from puz.h: the two bytes it stores. -/
def w_le_16 (x : Nat) : List Nat := [x % 256, x / 256 % 256]

/-- Model of `MAGIC_10_MASK` from puz.h: the ASCII bytes of ICHE. -/
def magic_10_mask : List Nat := [73, 67, 72, 69]

/-- Model of `MAGIC_14_MASK` from puz.h: the ASCII bytes of ATED. -/
def magic_14_mask : List Nat := [65, 84, 69, 68]

/-- The in-memory puzzle record (`struct puzzle_t` plus its embedded
`struct puz_head_t`, puz.h).  Optional sections are `Option`s standing for
possibly-NULL owned pointers; `clues`/`rtbl` pair a pointer array with the
separately stored counts `clue_count`/`rtbl_sz` as in the C struct. -/
structure Puzzle where
  width : Nat := 0
  height : Nat := 0
  clue_count : Nat := 0
  x_unk_30 : Nat := 0
  scrambled_tag : Nat := 0
  scrambled_cksum : Nat := 0
  cksum_puz : Nat := 0
  cksum_cib : Nat := 0
  magic_10 : List Nat := []
  magic_14 : List Nat := []
  cib : List Nat := []
  solution : List Nat := []
  grid : List Nat := []
  title : List Nat := []
  author : List Nat := []
  copyright : List Nat := []
  clues : List (List Nat) := []
  notes : List Nat := []
  notes_sz : Nat := 0
  grbs : Option (List Nat) := none
  grbs_cksum : Nat := 0
  rtbl : Option (List (List Nat)) := none
  rtbl_sz : Nat := 0
  rtbl_cksum : Nat := 0
  ltim : Option (List Nat) := none
  ltim_cksum : Nat := 0
  gext : Option (List Nat) := none
  gext_cksum : Nat := 0
  rusr : Option (List (Option (List Nat))) := none
  rusr_sz : Nat := 0
  rusr_cksum : Nat := 0
  calc_cksum_puzcib : Nat := 0
  calc_cksums : List Nat := []
  calc_magic10 : List Nat := []
  calc_magic14 : List Nat := []
  calc_grbs_cksum : Nat := 0
  calc_rtbl_cksum : Nat := 0
  calc_ltim_cksum : Nat := 0
  calc_gext_cksum : Nat := 0
  calc_rusr_cksum : Nat := 0
deriving DecidableEq

/-- Model of `puz_has_rebus` (puzzle.c): presence of the rebus grid pointer. -/
def puz_has_rebus (p : Puzzle) : Bool := p.grbs.isSome

/-- Model of `puz_has_timer` (puzzle.c). -/
def puz_has_timer (p : Puzzle) : Bool := p.ltim.isSome

/-- Model of `puz_has_extras` (puzzle.c). -/
def puz_has_extras (p : Puzzle) : Bool := p.gext.isSome

/-- Model of `puz_has_rusr` (puzzle.c). -/
def puz_has_rusr (p : Puzzle) : Bool := p.rusr.isSome

/-- The 8 CIB bytes written at the top of `puz_cksums_calc` (cksum.c):
width, height, then clue count, x_unk_30 and scrambled tag little-endian. -/
def cib_bytes (p : Puzzle) : List Nat :=
  [p.width % 256, p.height % 256] ++ w_le_16 p.clue_count ++
    w_le_16 p.x_unk_30 ++ w_le_16 p.scrambled_tag

/-- Model of `puz_cksum_cib` (cksum.c): checksum of the 8 stored CIB bytes, IV 0. -/
def puz_cksum_cib (p : Puzzle) : Nat :=
  puz_cksum_region (p.cib.take 8) 0

/-- Model of `puz_cksum` (cksum.c, the CKSUM_PIECEWISE branch actually compiled):
solution and grid, then title/author/copyright with NULs when non-empty,
each clue without its NUL, notes with NUL when non-empty. -/
def puz_cksum (p : Puzzle) (cksum : Nat) : Nat :=
  let bd := p.width * p.height
  let ck := puz_cksum_region (p.solution.take bd) cksum
  let ck := puz_cksum_region (p.grid.take bd) ck
  let ck := if cstrlen p.title > 0 then puz_cksum_region (str_with_nul p.title) ck else ck
  let ck := if cstrlen p.author > 0 then puz_cksum_region (str_with_nul p.author) ck else ck
  let ck := if cstrlen p.copyright > 0 then puz_cksum_region (str_with_nul p.copyright) ck else ck
  let ck := (List.range p.clue_count).foldl
    (fun c i => puz_cksum_region (str_to_nul (p.clues.getD i [])) c) ck
  if cstrlen p.notes > 0 then puz_cksum_region (str_with_nul p.notes) ck else ck

/-- Model of `puz_cksum2` (cksum.c): the secondary checksum, same pieces minus the
solution and grid. -/
def puz_cksum2 (p : Puzzle) (cksum : Nat) : Nat :=
  let ck := if cstrlen p.title > 0 then puz_cksum_region (str_with_nul p.title) cksum else cksum
  let ck := if cstrlen p.author > 0 then puz_cksum_region (str_with_nul p.author) ck else ck
  let ck := if cstrlen p.copyright > 0 then puz_cksum_region (str_with_nul p.copyright) ck else ck
  let ck := (List.range p.clue_count).foldl
    (fun c i => puz_cksum_region (str_to_nul (p.clues.getD i [])) c) ck
  if cstrlen p.notes > 0 then puz_cksum_region (str_with_nul p.notes) ck else ck

/-- Model of `magic_gen_10` (cksum.c): low bytes of the four sums XOR the ICHE mask. -/
def magic_gen_10 (sums : List Nat) : List Nat :=
  (List.range 4).map (fun i => (sums.getD i 0 % 256) ^^^ magic_10_mask.getD i 0)

/-- Model of `magic_gen_14` (cksum.c): high bytes of the four sums XOR the ATED mask. -/
def magic_gen_14 (sums : List Nat) : List Nat :=
  (List.range 4).map (fun i => (sums.getD i 0 / 256 % 256) ^^^ magic_14_mask.getD i 0)

/-- Model of `puz_rtblstr_get` (puzzle.c): serialize the rebus table, every entry
followed by a semicolon.  (The final write `rtbl_str[rtbl_strsz-1] = 0` lands
one past the last semicolon, so the trailing semicolon is kept.) -/
def puz_rtblstr_get (p : Puzzle) : List Nat :=
  (List.range p.rtbl_sz).foldl
    (fun acc i => acc ++ str_to_nul ((p.rtbl.getD []).getD i []) ++ [59]) []

/-- Model of `puz_rusrstr_get` (puzzle.c): binary form of the user-rebus board, a NUL
for empty cells and content-plus-NUL otherwise. -/
def puz_rusrstr_get (p : Puzzle) : List Nat :=
  (p.rusr.getD []).foldl
    (fun acc e =>
      match e with
      | none => acc ++ [0]
      | some s => acc ++ str_to_nul s ++ [0]) []

/-- Model of `rtbl_gen` (cksum.c): checksum of the serialized rebus table, IV 0. -/
def rtbl_gen (p : Puzzle) : Nat :=
  puz_cksum_region (str_to_nul (puz_rtblstr_get p)) 0

/-- Model of `rusr_gen` (cksum.c): checksum over `rusr_sz` bytes of the serialized
user-rebus board, IV 0. -/
def rusr_gen (p : Puzzle) : Nat :=
  puz_cksum_region ((puz_rusrstr_get p).take p.rusr_sz) 0

/-- Model of `puz_cksums_calc` (cksum.c): rebuild the CIB bytes and store every
calculated checksum and both calculated magic vectors. -/
def puz_cksums_calc (p : Puzzle) : Puzzle :=
  let p1 := { p with cib := cib_bytes p }
  let puz0 := puz_cksum2 p1 0
  let cib := puz_cksum_cib p1
  let puzcib := puz_cksum p1 cib
  let bd := p1.width * p1.height
  let grid := puz_cksum_region (p1.grid.take bd) 0
  let soln := puz_cksum_region (p1.solution.take bd) 0
  let sums := [cib, soln, grid, puz0]
  let p2 := { p1 with
    calc_cksum_puzcib := puzcib,
    calc_cksums := sums,
    calc_magic10 := magic_gen_10 sums,
    calc_magic14 := magic_gen_14 sums }
  let p3 := if puz_has_rebus p2 then
      { p2 with calc_grbs_cksum := puz_cksum_region ((p2.grbs.getD []).take bd) 0,
                calc_rtbl_cksum := rtbl_gen p2 }
    else p2
  let p4 := if puz_has_timer p3 then
      { p3 with calc_ltim_cksum := puz_cksum_region (str_to_nul (p3.ltim.getD [])) 0 }
    else p3
  let p5 := if puz_has_extras p4 then
      { p4 with calc_gext_cksum := puz_cksum_region ((p4.gext.getD []).take bd) 0 }
    else p4
  if puz_has_rusr p5 then { p5 with calc_rusr_cksum := rusr_gen p5 } else p5

/-- Model of `puz_size` (puzzle.c) on a non-NULL puzzle: exact serialized length. -/
def puz_size_core (p : Puzzle) : Nat :=
  let board_size := p.width * p.height
  let sz := 0x34 + board_size + board_size
    + (cstrlen p.title + 1) + (cstrlen p.author + 1) + (cstrlen p.copyright + 1)
  let sz := sz + (List.range p.clue_count).foldl
    (fun s i => s + (cstrlen (p.clues.getD i []) + 1)) 0
  let sz := sz + (if p.notes_sz ≠ 0 then p.notes_sz else 0) + 1
  let sz := if puz_has_rebus p then
      sz + 4 + 2 + 2 + board_size + 1
         + 4 + 2 + 2
         + (List.range (if puz_has_rebus p then p.rtbl_sz else 0)).foldl
             (fun s i => s + (cstrlen ((p.rtbl.getD []).getD i []) + 1)) 0
         + 1
    else sz
  let sz := if puz_has_timer p then sz + 4 + 4 + cstrlen (p.ltim.getD []) + 1 else sz
  let sz := if puz_has_extras p then sz + 4 + 2 + 2 + board_size + 1 else sz
  if puz_has_rusr p then sz + 4 + 2 + 2 + p.rusr_sz + 1 else sz

/-- Model of `puz_size` (puzzle.c): -1 on a NULL puzzle. -/
def puz_size : Option Puzzle → Int
  | none => -1
  | some p => (puz_size_core p : Int)

/-- Model of `puz_lock_set` (puzzle.c): non-zero checksum marks the puzzle locked with
tag 4, zero clears both lock fields. -/
def puz_lock_set (p : Puzzle) (cksum : Nat) : Puzzle :=
  if cksum % 65536 ≠ 0 then
    { p with scrambled_tag := 4, scrambled_cksum := cksum % 65536 }
  else
    { p with scrambled_tag := 0, scrambled_cksum := 0 }

/-- The state after `(List.range n).foldl` of single-cell writes: used to
model the in-place store loops of puzzle.c. -/
def write_loop (dest : List Nat) (n : Nat) (idx : Nat → Nat) (val : Nat → Nat) : List Nat :=
  (List.range n).foldl (fun acc j => acc.set (idx j) (val j)) dest

/-- Model of `strncpy(dest+off, src, n)` into a buffer: for each of the `n` positions,
the source byte before its NUL, zero padding afterwards. -/
def strncpy_into (dest : List Nat) (off : Nat) (src : List Nat) (n : Nat) : List Nat :=
  write_loop dest n (fun j => off + j) (fun j => if j < cstrlen src then src.getD j 0 else 0)

/-- The state after `(List.range n).foldl` of single-cell read-modify-write
updates, where cell `j` is replaced by a function of its current value. -/
def update_loop (dest : List Nat) (n : Nat) (g : Nat → Nat → Nat) : List Nat :=
  (List.range n).foldl (fun acc j => acc.set j (g j (acc.getD j 0))) dest

/-- Model of `unscramble_string` (puzzle.c): scatter `inp[i]` to `len/2 + i/2` for even
`i` and to `i/2` for odd `i`, then terminate at `len`.  (The C function also
returns an error flag that only fires on NULL pointers, which the list model
cannot represent.) -/
def unscramble_string (inp out : List Nat) : List Nat :=
  let len := cstrlen inp
  let strbreak := len / 2
  (write_loop out len
    (fun i => if i % 2 = 0 then strbreak + i / 2 else i / 2)
    (fun i => inp.getD i 0)).set len 0

/-- Model of `unshift_string` (puzzle.c): `none` when the string is shorter than the
shift, otherwise the last `shift` bytes moved back to the front. -/
def unshift_string (inp : List Nat) (shift : Nat) (out : List Nat) : Option (List Nat) :=
  let len := cstrlen inp
  if len < shift then none
  else
    some (((strncpy_into (strncpy_into out shift inp (len - shift))
      0 (inp.drop (len - shift)) shift)).set len 0)

/-- Model of `formatted_solution` (puzzle.c): walk columns `i` then rows `j`, reading
`sol[j*h + i]` (the source uses the height, not the width, as the row stride)
and collect the bytes that are not 46, the ASCII dot. -/
def formatted_solution (p : Puzzle) : List Nat :=
  (List.range p.width).foldl
    (fun acc i =>
      (List.range p.height).foldl
        (fun acc2 j =>
          if p.solution.getD (j * p.height + i) 0 ≠ 46 then
            acc2 ++ [p.solution.getD (j * p.height + i) 0]
          else acc2) acc) []

/-- Model of `unformat_unlocked_sol` (puzzle.c): write a formatted string back into
the non-dot cells, visited in the same `sol[j*h + i]` order, reading the
dot test from the buffer as it is being updated, as the in-place C code does.
Returns the updated solution buffer. -/
def unformat_unlocked_sol (p : Puzzle) (formatted : List Nat) : List Nat :=
  ((List.range p.width).foldl
    (fun acc i =>
      (List.range p.height).foldl
        (fun (acc2 : List Nat × Nat) j =>
          if acc2.1.getD (j * p.height + i) 0 ≠ 46 then
            (acc2.1.set (j * p.height + i) (formatted.getD acc2.2 0), acc2.2 + 1)
          else acc2) acc) (p.solution, 0)).1

/-- The four decimal digits `puz_unlock_solution` extracts from its
`unsigned short` code argument. -/
def digitsOf (code : Nat) : List Nat :=
  let c := code % 65536
  [c / 1000 % 10, c / 100 % 10, c / 10 % 10, c % 10]

/-- The per-character adjustment in the unlock loop of `puz_unlock_solution`:
subtract a digit on the wrapping unsigned char, then raise results below 65
by 26. -/
def unlock_char_step (c d : Nat) : Nat :=
  let c2 := (c + 256 - d % 256) % 256
  if c2 < 65 then c2 + 26 else c2

/-- The inner `for (j...)` subtraction pass of `puz_unlock_solution`. -/
def subtract_loop (ds : List Nat) (len : Nat) (w : List Nat) : List Nat :=
  update_loop w len (fun j c => unlock_char_step c (ds.getD (j % 4) 0))

/-- One iteration of the `for (i = 3; i >= 0; i--)` loop of
`puz_unlock_solution`: unscramble into workspace 2, unshift back into
workspace 1 (failing as the C code does with its -4 return), then the
subtraction pass over `len` characters. -/
def unlock_round (ds : List Nat) (len : Nat) (i : Nat) (ws : List Nat × List Nat) :
    Option (List Nat × List Nat) :=
  let w2 := unscramble_string ws.1 ws.2
  match unshift_string w2 (ds.getD i 0) ws.1 with
  | none => none
  | some w1 => some (subtract_loop ds len w1, w2)

/-- The four unlock rounds, i = 3 down to 0. -/
def unlock_rounds (ds : List Nat) (len : Nat) (ws : List Nat × List Nat) :
    Option (List Nat × List Nat) :=
  [3, 2, 1, 0].foldl (fun st i => st.bind (unlock_round ds len i)) (some ws)

/-- The dot-stripping pass before the checksum compare in
`puz_unlock_solution`, including the final `workspace2[j] = 0` store at
index `len`. -/
def strip_dots (src dst : List Nat) (len : Nat) : List Nat :=
  ((List.range len).foldl
    (fun (acc : List Nat × Nat) j =>
      if src.getD j 0 ≠ 46 then (acc.1.set acc.2 (src.getD j 0), acc.2 + 1)
      else acc) (dst, 0)).1.set len 0

/-- Model of `puz_unlock_solution` (puzzle.c) on a non-NULL puzzle.  Allocation never
fails in the model, so the C -3 return does not arise; the -4 return maps to
a failing `unlock_round`. -/
def puz_unlock_core (p : Puzzle) (code : Nat) : Int × Puzzle :=
  if p.scrambled_tag = 0 then (1, p)
  else
    let ds := digitsOf code
    if ds.any (fun d => d = 0) then (-2, p)
    else
      let inp := formatted_solution p
      let len := cstrlen inp
      let w1 := strncpy_into (List.replicate (len + 1) 0) 0 inp (len + 1)
      let w2 := List.replicate (len + 1) 0
      match unlock_rounds ds len (w1, w2) with
      | none => (-4, p)
      | some ws =>
        let stripped := strip_dots ws.1 ws.2 len
        let ck := puz_cksum_region (stripped.take len) 0
        if ck ≠ p.scrambled_cksum then (2, p)
        else
          let p2 := { p with solution := unformat_unlocked_sol p ws.1 }
          ((0 : Int), puz_lock_set p2 0)

/-- Model of `puz_unlock_solution` including its NULL-puzzle -1 return. -/
def puz_unlock_solution : Option Puzzle → Nat → Int × Option Puzzle
  | none, _ => (-1, none)
  | some p, code =>
    let rp := puz_unlock_core p code
    (rp.1, some rp.2)

/-- The `for (; code < 10000; code++)` loop of `puz_brute_force_unlock`,
with the loop counter carried as fuel: `fuel = 10000 - code` reproduces the
loop guard exactly.  When the loop exhausts the range the last unlock result
was non-zero and the function returns -3. -/
def brute_loop : Nat → Nat → Puzzle → Int × Puzzle
  | 0, _, p => (-3, p)
  | fuel + 1, code, p =>
    let rp := puz_unlock_core p code
    if rp.1 = 0 then ((code : Int), rp.2) else brute_loop fuel (code + 1) rp.2

/-- Model of `puz_brute_force_unlock` (puzzle.c) on a non-NULL puzzle. -/
def puz_brute_force_unlock (p : Puzzle) : Int × Puzzle :=
  if p.scrambled_tag = 0 then (-2, p) else brute_loop 8889 1111 p

/-- Model of `puz_clear_rtbl` (puzzle.c): drop the table and zero its counters and
checksums. -/
def puz_clear_rtbl (p : Puzzle) : Puzzle :=
  { p with rtbl := none, rtbl_sz := 0, rtbl_cksum := 0, calc_rtbl_cksum := 0 }

/-- Model of `puz_rtblstr_set` (puzzle.c): count the semicolons in the string, then
cut one entry before each semicolon in order.  (`strchr` never fails here
because the entry count is exactly the semicolon count.) -/
def puz_rtblstr_set (p : Puzzle) (val : List Nat) : Puzzle :=
  let p := if p.rtbl.isSome then puz_clear_rtbl p else p
  let s := str_to_nul val
  { p with rtbl := some ((s.splitOn 59).dropLast), rtbl_sz := s.count 59 }

/-- Model of `load_grbs_bin` (load.c): checksum, `W*H` rebus-grid bytes and a NUL;
an identically zero grid is discarded; then the RTBL sub-section is read
when its tag follows, and its absence is an error (advance 0) exactly when
the grid had a non-zero byte.  In that error path the C code frees the grid
allocation but leaves the pointer in place; the model keeps the field, and
the caller discards or misuses the puzzle exactly as load.c does. -/
def load_grbs_bin (p : Puzzle) (base : List Nat) : Nat × Puzzle :=
  let bd := p.width * p.height
  let p := { p with grbs_cksum := le_16 base 0 }
  let grbs := (base.drop 2).take bd
  let rbssum := grbs.sum
  let p := { p with grbs := if rbssum = 0 then none else some grbs }
  if ((base.drop (3 + bd)).take 4) ≠ [82, 84, 66, 76] then
    if rbssum ≠ 0 then (0, p) else (3 + bd, p)
  else
    let rtbl_strsz := le_16 base (7 + bd)
    let p := if rbssum ≠ 0 then { p with rtbl_cksum := le_16 base (9 + bd) } else p
    let p := if rbssum ≠ 0 then puz_rtblstr_set p (base.drop (11 + bd)) else p
    (12 + bd + rtbl_strsz, p)

/-- Model of `load_ltim_bin` (load.c): checksum, then `ltim_sz` bytes copied with
`strncpy` into a zeroed buffer, so the stored string stops at the first NUL. -/
def load_ltim_bin (p : Puzzle) (base : List Nat) (ltim_sz : Nat) : Nat × Puzzle :=
  let p := { p with ltim_cksum := le_16 base 0 }
  (ltim_sz + 3, { p with ltim := some (((base.drop 2).take ltim_sz).takeWhile (fun b => b != 0)) })

/-- Model of `load_gext_bin` (load.c): checksum, `W*H` extras bytes, final NUL. -/
def load_gext_bin (p : Puzzle) (base : List Nat) : Nat × Puzzle :=
  let bd := p.width * p.height
  let p := { p with gext_cksum := le_16 base 0 }
  (2 + bd + 1, { p with gext := some ((base.drop 2).take bd) })

/-- Model of `load_rusr_bin` (load.c): checksum, then `W*H` consecutive NUL-terminated
strings, each truncated at `MAX_REBUS_SIZE` (100) bytes; `rusr_sz` is the
bytes consumed minus the 2-byte checksum. -/
def load_rusr_bin (p : Puzzle) (base : List Nat) : Nat × Puzzle :=
  let bd := p.width * p.height
  let p := { p with rusr_cksum := le_16 base 0 }
  let st := (List.range bd).foldl
    (fun (st : Nat × List (Option (List Nat))) _ =>
      let i := st.1
      if base.getD i 0 ≠ 0 then
        let e := (str_to_nul (base.drop i)).take 100
        (i + e.length + 1, st.2 ++ [some e])
      else (i + 1, st.2 ++ [none])) (2, ([] : List (Option (List Nat))))
  (st.1 + 1, { p with rusr := some st.2, rusr_sz := st.1 - 2 })

/-- The trailing-section `while (i+5 < sz)` loop of `puz_load_bin` (load.c).
`didmalloc` records whether the loader allocated the puzzle itself; a
section advancing 0 bytes aborts the load (NULL result, modelled `none`)
only in that case, otherwise the C code merely logs, advances the 6 header
bytes and keeps parsing.  The fuel argument only bounds the iteration count;
every iteration advances `i` by at least 6, so `sz` steps always suffice. -/
def section_loop : Nat → List Nat → Nat → Nat → Bool → Puzzle → Option Puzzle
  | 0, _, _, _, _, p => some p
  | fuel + 1, base, sz, i, didmalloc, p =>
    if i + 5 < sz then
      let section_sz := le_16 base (i + 4)
      let tag := (base.drop i).take 4
      if tag = [71, 82, 66, 83] then
        let ap := load_grbs_bin p (base.drop (i + 6))
        if ap.1 = 0 ∧ didmalloc then none
        else section_loop fuel base sz (i + 6 + ap.1) didmalloc ap.2
      else if tag = [76, 84, 73, 77] then
        let ap := load_ltim_bin p (base.drop (i + 6)) section_sz
        if ap.1 = 0 ∧ didmalloc then none
        else section_loop fuel base sz (i + 6 + ap.1) didmalloc ap.2
      else if tag = [71, 69, 88, 84] then
        let ap := load_gext_bin p (base.drop (i + 6))
        if ap.1 = 0 ∧ didmalloc then none
        else section_loop fuel base sz (i + 6 + ap.1) didmalloc ap.2
      else if tag = [82, 85, 83, 82] then
        let ap := load_rusr_bin p (base.drop (i + 6))
        if ap.1 = 0 ∧ didmalloc then none
        else section_loop fuel base sz (i + 6 + ap.1) didmalloc ap.2
      else
        section_loop fuel base sz (i + 6 + section_sz + 1) didmalloc p
    else some p

/-! Specification-side definitions, written from the wording of the claims
and of spec.md, to be compared with the code-side embeddings above. -/

/-- Claim C1: the secondary checksum described as one rotate-and-sum run
over the concatenation of title/author/copyright with their NULs when
non-empty, every clue without its NUL, and notes with its NUL when
non-empty, with initial value 0. -/
def spec_cksum2 (p : Puzzle) : Nat :=
  puz_cksum_region
    ((if p.title ≠ [] then p.title ++ [0] else [])
      ++ (if p.author ≠ [] then p.author ++ [0] else [])
      ++ (if p.copyright ≠ [] then p.copyright ++ [0] else [])
      ++ p.clues.flatten
      ++ (if p.notes ≠ [] then p.notes ++ [0] else [])) 0

/-- Claim C1: `sums = [cib, sol_sum, grid_sum, cksum2]` over the CIB block
and the full solution and grid buffers. -/
def spec_sums (p : Puzzle) : List Nat :=
  [puz_cksum_region (cib_bytes p) 0,
   puz_cksum_region p.solution 0,
   puz_cksum_region p.grid 0,
   spec_cksum2 p]

/-- Claim C3: the canonical solution string per the spec, columns outer and
rows inner over the row-major cell `y*W + x`, dots skipped. -/
def canonical_solution (p : Puzzle) : List Nat :=
  (List.range p.width).foldl
    (fun acc x =>
      (List.range p.height).foldl
        (fun acc2 y =>
          if p.solution.getD (y * p.width + x) 0 ≠ 46 then
            acc2 ++ [p.solution.getD (y * p.width + x) 0]
          else acc2) acc) []

/-- Claim C4, as written in the spec: the scramble step that stores
`t[i]` at `L/2 + i/2` for even `i` and at `i/2` for odd `i`. -/
def spec_scramble_step (t : List Nat) : List Nat :=
  write_loop (List.replicate t.length 0) t.length
    (fun i => if i % 2 = 0 then t.length / 2 + i / 2 else i / 2)
    (fun i => t.getD i 0)

/-- The scramble step actually inverted by `unscramble_string` (the comment
in puzzle.c): the output reads `t[L/2 + i/2]` at even `i` and `t[i/2]` at
odd `i`, interleaving the two halves with the second half first. -/
def scramble_step (t : List Nat) : List Nat :=
  (List.range t.length).map
    (fun i => t.getD (if i % 2 = 0 then t.length / 2 + i / 2 else i / 2) 0)

/-- Claim C4: shifting by `k` moves the prefix of length `k` to the end. -/
def shift_by (t : List Nat) (k : Nat) : List Nat := t.drop k ++ t.take k

/-- The value-level description of one `unscramble_string` pass: position
`j` receives `t[2j+1]` in the first half and `t[2(j - L/2)]` in the second. -/
def unscramble_pure (t : List Nat) : List Nat :=
  (List.range t.length).map
    (fun j => t.getD (if j < t.length / 2 then 2 * j + 1 else 2 * (j - t.length / 2)) 0)

/-- The value-level description of one `unshift_string` pass: the last `k`
bytes return to the front. -/
def unshift_pure (t : List Nat) (k : Nat) : List Nat :=
  t.drop (t.length - k) ++ t.take (t.length - k)

/-- The value-level description of the subtraction pass. -/
def subtract_pure (ds t : List Nat) : List Nat :=
  (List.range t.length).map
    (fun j => unlock_char_step (t.getD j 0) (ds.getD (j % 4) 0))

/-- The decoded candidate solution of `puz_unlock_solution` as a pure
pipeline: for `i` from 3 down to 0, unscramble, unshift by digit `i`, then
subtract the digits positionally. -/
def decode_spec (ds t : List Nat) : List Nat :=
  [3, 2, 1, 0].foldl
    (fun u i => subtract_pure ds (unshift_pure (unscramble_pure u) (ds.getD i 0))) t

/-- Claim C7: the serialized size as the spec states it: 0x34 header, the
two boards, the three NUL-terminated strings, clue lengths with NULs, notes
plus one, and `tag + len + cksum + payload + NUL` per present section, the
RTBL payload being the serialized rebus table. -/
def spec_size (p : Puzzle) : Nat :=
  0x34 + 2 * (p.width * p.height)
    + (p.title.length + 1) + (p.author.length + 1) + (p.copyright.length + 1)
    + (p.clues.map (fun c => c.length + 1)).sum
    + p.notes_sz + 1
    + (if puz_has_rebus p then
        (4 + 2 + 2 + p.width * p.height + 1)
          + (4 + 2 + 2 + (puz_rtblstr_get p).length + 1)
      else 0)
    + (if puz_has_timer p then 4 + 2 + 2 + (p.ltim.getD []).length + 1 else 0)
    + (if puz_has_extras p then 4 + 2 + 2 + p.width * p.height + 1 else 0)
    + (if puz_has_rusr p then 4 + 2 + 2 + p.rusr_sz + 1 else 0)

/-- Claim C9: the lock-state invariant from the spec data model. -/
def lock_invariant (p : Puzzle) : Prop :=
  (p.scrambled_tag = 4 ∧ p.scrambled_cksum ≠ 0) ∨
    (p.scrambled_tag = 0 ∧ p.scrambled_cksum = 0)

/-- A 1 by 1 puzzle locked with code 1111: the stored scrambled solution is
the single letter A, whose decode under 1111 is W with rotate-and-sum 87. -/
def example_locked_1x1 : Puzzle :=
  { width := 1, height := 1, solution := [65], scrambled_tag := 4, scrambled_cksum := 87 }

/-- An unlocked puzzle (scrambled tag 0). -/
def example_unlocked : Puzzle := { width := 1, height := 1, solution := [65] }

/-- A 3-wide, 2-high board with row-major solution ABCDEF and no black
squares: the smallest shape on which the `sol[j*h + i]` indexing of
`formatted_solution` stays in bounds yet differs from `sol[j*w + i]`. -/
def example_3x2 : Puzzle :=
  { width := 3, height := 2, solution := [65, 66, 67, 68, 69, 70] }

/-- A 1 by 1 board used to drive the trailing-section loader. -/
def example_1x1_board : Puzzle := { width := 1, height := 1, solution := [65], grid := [45] }

/-- A trailing-section buffer holding a single GRBS section whose 1-byte
rebus grid is zero and which is not followed by an RTBL tag: tag, 2-byte
length, 2-byte checksum, grid byte, NUL, one following byte. -/
def grbs_zero_tail : List Nat := [71, 82, 66, 83, 1, 0, 0, 0, 0, 0, 0]

/-- The same section with the rebus grid byte 1 (a rebus present) and still
no RTBL tag after the payload. -/
def grbs_missing_rtbl_tail : List Nat := [71, 82, 66, 83, 5, 0, 0, 0, 1, 0, 0]

/-- A 2 by 2 puzzle with non-empty metadata, two clues and notes, used to
instantiate the checksum and size theorems. -/
def example_c1 : Puzzle :=
  { width := 2, height := 2, clue_count := 2, x_unk_30 := 1,
    solution := [65, 66, 67, 68], grid := [45, 45, 45, 45],
    title := [84], author := [65], copyright := [67],
    clues := [[97], [98]], notes := [78], notes_sz := 1 }

/-! Helper lemmas about the list model. -/

theorem cksum_region_append (a b : List Nat) (ck : Nat) :
    puz_cksum_region (a ++ b) ck = puz_cksum_region b (puz_cksum_region a ck) := by
  unfold puz_cksum_region
  rw [List.foldl_append]

theorem getD_mem_of_lt (l : List Nat) (p : Nat) (h : p < l.length) : l.getD p 0 ∈ l := by
  rw [List.getD_eq_getElem?_getD, List.getElem?_eq_getElem h]
  exact List.getElem_mem h

theorem prefix_getD (l1 l2 : List Nat) (h : l1 <+: l2) (p : Nat) (hp : p < l1.length) :
    l1.getD p 0 = l2.getD p 0 := by
  rw [List.getD_eq_getElem?_getD, List.getD_eq_getElem?_getD,
    List.getElem?_eq_getElem hp, List.getElem?_eq_getElem (Nat.lt_of_lt_of_le hp h.length_le)]
  rw [List.IsPrefix.getElem h hp]

theorem str_to_nul_of_no_zero (l : List Nat) (h : ∀ b ∈ l, b ≠ 0) : str_to_nul l = l := by
  unfold str_to_nul
  apply List.takeWhile_eq_self_iff.mpr
  intro x hx
  simpa using h x hx

theorem cstrlen_of_no_zero (l : List Nat) (h : ∀ b ∈ l, b ≠ 0) : cstrlen l = l.length := by
  unfold cstrlen
  rw [show l.takeWhile (fun b => b != 0) = str_to_nul l from rfl, str_to_nul_of_no_zero l h]

theorem str_to_nul_append_zero (u : List Nat) (h : ∀ b ∈ u, b ≠ 0) :
    str_to_nul (u ++ [0]) = u := by
  unfold str_to_nul
  rw [List.takeWhile_append]
  have hu : u.takeWhile (fun b => b != 0) = u := by
    apply List.takeWhile_eq_self_iff.mpr
    intro x hx
    simpa using h x hx
  simp [hu]

theorem cstrlen_append_zero (u : List Nat) (h : ∀ b ∈ u, b ≠ 0) :
    cstrlen (u ++ [0]) = u.length := by
  have h2 := str_to_nul_append_zero u h
  unfold str_to_nul at h2
  unfold cstrlen
  rw [h2]

theorem str_with_nul_of_no_zero (l : List Nat) (h : ∀ b ∈ l, b ≠ 0) :
    str_with_nul l = l ++ [0] := by
  unfold str_with_nul
  rw [show l.takeWhile (fun b => b != 0) = str_to_nul l from rfl, str_to_nul_of_no_zero l h]

theorem list_ext_getD (l1 l2 : List Nat) (hlen : l1.length = l2.length)
    (h : ∀ p, p < l1.length → l1.getD p 0 = l2.getD p 0) : l1 = l2 := by
  apply List.ext_getElem hlen
  intro i h1 h2
  have := h i h1
  rwa [List.getD_eq_getElem?_getD, List.getD_eq_getElem?_getD,
    List.getElem?_eq_getElem h1, List.getElem?_eq_getElem h2] at this

theorem getD_set_ne (l : List Nat) (i j a : Nat) (hij : i ≠ j) :
    (l.set i a).getD j 0 = l.getD j 0 := by
  rw [List.getD_eq_getElem?_getD, List.getD_eq_getElem?_getD, List.getElem?_set_ne hij]

theorem getD_set_eq (l : List Nat) (i a : Nat) (hi : i < l.length) :
    (l.set i a).getD i 0 = a := by
  rw [List.getD_eq_getElem?_getD, List.getElem?_set_self hi]
  rfl

theorem getD_append_left (u v : List Nat) (p : Nat) (hp : p < u.length) :
    (u ++ v).getD p 0 = u.getD p 0 :=
  (prefix_getD u (u ++ v) (List.prefix_append u v) p hp).symm

theorem getD_append_right (u v : List Nat) (p : Nat) (hp : u.length ≤ p) :
    (u ++ v).getD p 0 = v.getD (p - u.length) 0 := by
  rw [List.getD_eq_getElem?_getD, List.getD_eq_getElem?_getD, List.getElem?_append_right hp]

theorem getD_take (l : List Nat) (n p : Nat) (hp : p < n) (hl : p < l.length) :
    (l.take n).getD p 0 = l.getD p 0 := by
  apply prefix_getD _ _ ⟨l.drop n, List.take_append_drop n l⟩
  rw [List.length_take]
  omega

theorem getD_ge_length (l : List Nat) (p : Nat) (hp : l.length ≤ p) : l.getD p 0 = 0 := by
  rw [List.getD_eq_getElem?_getD, List.getElem?_eq_none (by omega)]
  rfl

theorem write_loop_succ (dest : List Nat) (n : Nat) (idx val : Nat → Nat) :
    write_loop dest (n + 1) idx val = (write_loop dest n idx val).set (idx n) (val n) := by
  unfold write_loop
  rw [List.range_succ, List.foldl_append]
  rfl

theorem write_loop_length (dest : List Nat) (n : Nat) (idx val : Nat → Nat) :
    (write_loop dest n idx val).length = dest.length := by
  induction n with
  | zero => rfl
  | succ m ih => rw [write_loop_succ, List.length_set, ih]

theorem write_loop_getD_at (dest : List Nat) (idx val : Nat → Nat) (n : Nat) (j0 pos : Nat)
    (hj0 : j0 < n) (hpos : idx j0 = pos) (hlt : pos < dest.length)
    (hinj : ∀ j, j < n → idx j = pos → j = j0) :
    (write_loop dest n idx val).getD pos 0 = val j0 := by
  induction n with
  | zero => omega
  | succ m ih =>
    rw [write_loop_succ]
    by_cases hjm : j0 = m
    · have hp2 : idx m = pos := by rw [← hjm]; exact hpos
      rw [← hp2, hjm]
      exact getD_set_eq _ _ _ (by rw [write_loop_length, hp2]; exact hlt)
    · have hne : idx m ≠ pos := fun h => hjm (hinj m (by omega) h).symm
      rw [getD_set_ne _ (idx m) pos (val m) hne]
      exact ih (by omega) (fun j hj hh => hinj j (by omega) hh)

theorem write_loop_getD_untouched (dest : List Nat) (idx val : Nat → Nat) (n : Nat) (p : Nat)
    (hp : ∀ j, j < n → idx j ≠ p) :
    (write_loop dest n idx val).getD p 0 = dest.getD p 0 := by
  induction n with
  | zero => rfl
  | succ m ih =>
    rw [write_loop_succ]
    rw [getD_set_ne _ _ _ _ (hp m (by omega))]
    exact ih (fun j hj => hp j (by omega))

theorem update_loop_succ (dest : List Nat) (g : Nat → Nat → Nat) (n : Nat) :
    update_loop dest (n + 1) g =
      (update_loop dest n g).set n (g n ((update_loop dest n g).getD n 0)) := by
  unfold update_loop
  rw [List.range_succ, List.foldl_append]
  rfl

theorem update_loop_length (dest : List Nat) (g : Nat → Nat → Nat) (n : Nat) :
    (update_loop dest n g).length = dest.length := by
  induction n with
  | zero => rfl
  | succ m ih => rw [update_loop_succ]; simp only [List.length_set]; exact ih

theorem update_loop_getD (dest : List Nat) (g : Nat → Nat → Nat) (n : Nat)
    (hn : n ≤ dest.length) :
    ∀ p, (update_loop dest n g).getD p 0 =
      if p < n then g p (dest.getD p 0) else dest.getD p 0 := by
  induction n with
  | zero => intro p; simp [update_loop]
  | succ m ih =>
    intro p
    rw [update_loop_succ]
    have hm : m ≤ dest.length := by omega
    by_cases hp : p = m
    · subst hp
      rw [getD_set_eq _ _ _ (by rw [update_loop_length]; omega)]
      rw [ih hm p, if_neg (by omega), if_pos (by omega)]
    · rw [getD_set_ne _ _ _ _ (fun h => hp h.symm), ih hm]
      by_cases hc : p < m
      · rw [if_pos hc, if_pos (by omega)]
      · rw [if_neg hc, if_neg (by omega)]

theorem range_foldl_getD {α β : Type} (l : List α) (d : α) (f : β → α → β) :
    ∀ a : β, (List.range l.length).foldl (fun b i => f b (l.getD i d)) a = l.foldl f a := by
  induction l with
  | nil => intro a; rfl
  | cons x xs ih =>
    intro a
    rw [List.length_cons, List.range_succ_eq_map]
    simp only [List.foldl_cons, List.foldl_map, List.getD_cons_zero, List.getD_cons_succ]
    exact ih (f a x)

/-- Every return of `puz_unlock_solution` either is the success code 0 or
leaves the puzzle exactly as it was: all the early returns and the
checksum-mismatch return hand back the untouched record. -/
theorem unlock_core_cases (p : Puzzle) (code : Nat) :
    (puz_unlock_core p code).1 = 0 ∨ (puz_unlock_core p code).2 = p := by
  simp only [puz_unlock_core]
  split
  · right; rfl
  · split
    · right; rfl
    · split
      · right; rfl
      · split
        · right; rfl
        · left; rfl

/-- On the success path the unlock ends by calling `puz_lock_set(puz, 0)`,
so the lock fields of the returned state are both zero. -/
theorem unlock_core_success_clears (p : Puzzle) (code : Nat)
    (h : (puz_unlock_core p code).1 = 0) :
    (puz_unlock_core p code).2.scrambled_tag = 0 ∧
      (puz_unlock_core p code).2.scrambled_cksum = 0 := by
  rcases hE : puz_unlock_core p code with ⟨r, q⟩
  rw [hE] at h
  simp only at h
  simp only [puz_unlock_core] at hE
  split at hE
  · injection hE with h1 h2; subst h1; cases h
  · split at hE
    · injection hE with h1 h2; subst h1; cases h
    · split at hE
      · injection hE with h1 h2; subst h1; cases h
      · split at hE
        · injection hE with h1 h2; subst h1; cases h
        · injection hE with h1 h2
          subst h2
          constructor <;> simp [puz_lock_set]

/-! Claim theorems. -/

/-- C8: the rotate-and-sum primitive `puz_cksum_region` composes over
concatenation: checksumming `a ++ b` from `iv` equals checksumming `b`
starting from the checksum of `a`. -/
theorem claim_C8_cksum_region_concat (a b : List Nat) (iv : Nat) :
    puz_cksum_region (a ++ b) iv = puz_cksum_region b (puz_cksum_region a iv) :=
  cksum_region_append a b iv

/-- C9: `puz_lock_set` establishes the lock-state invariant (non-zero
checksum argument gives tag 4 and that checksum, zero gives tag 0 and
checksum 0), and every successful `puz_unlock_solution` leaves tag 0 and
checksum 0. -/
theorem claim_C9_lock_invariant (p : Puzzle) (c code : Nat) (hc : c < 65536) :
    (lock_invariant (puz_lock_set p c) ∧
      (c ≠ 0 → (puz_lock_set p c).scrambled_tag = 4 ∧ (puz_lock_set p c).scrambled_cksum = c) ∧
      (c = 0 → (puz_lock_set p c).scrambled_tag = 0 ∧ (puz_lock_set p c).scrambled_cksum = 0)) ∧
    ((puz_unlock_core p code).1 = 0 →
      (puz_unlock_core p code).2.scrambled_tag = 0 ∧
        (puz_unlock_core p code).2.scrambled_cksum = 0) := by
  have hmod : c % 65536 = c := Nat.mod_eq_of_lt hc
  constructor
  · by_cases h0 : c = 0
    · subst h0
      refine ⟨Or.inr ⟨rfl, rfl⟩, fun h => absurd rfl h, fun _ => ⟨rfl, rfl⟩⟩
    · have hne : c % 65536 ≠ 0 := by rw [hmod]; exact h0
      unfold puz_lock_set lock_invariant
      rw [if_pos hne]
      exact ⟨Or.inl ⟨rfl, by simpa [hmod] using h0⟩,
        fun _ => ⟨rfl, hmod⟩, fun h => absurd h h0⟩
  · exact unlock_core_success_clears p code

/-- C9 witness: the concrete locked 1 by 1 puzzle, checksum 87, code 1111. -/
theorem claim_C9_witness :
    87 < 65536 ∧
    ((lock_invariant (puz_lock_set example_locked_1x1 87) ∧
      (87 ≠ 0 → (puz_lock_set example_locked_1x1 87).scrambled_tag = 4 ∧
        (puz_lock_set example_locked_1x1 87).scrambled_cksum = 87) ∧
      (87 = 0 → (puz_lock_set example_locked_1x1 87).scrambled_tag = 0 ∧
        (puz_lock_set example_locked_1x1 87).scrambled_cksum = 0)) ∧
    ((puz_unlock_core example_locked_1x1 1111).1 = 0 →
      (puz_unlock_core example_locked_1x1 1111).2.scrambled_tag = 0 ∧
        (puz_unlock_core example_locked_1x1 1111).2.scrambled_cksum = 0)) :=
  ⟨by decide, claim_C9_lock_invariant example_locked_1x1 87 1111 (by decide)⟩

/-- C10: whenever `puz_unlock_solution` returns non-zero, the puzzle record
is unchanged; in particular the solution bytes and both lock fields are
exactly as before the call. -/
theorem claim_C10_failure_preserves_state (p : Puzzle) (code : Nat)
    (h : (puz_unlock_core p code).1 ≠ 0) :
    (puz_unlock_core p code).2 = p ∧
    (puz_unlock_core p code).2.solution = p.solution ∧
    (puz_unlock_core p code).2.scrambled_tag = p.scrambled_tag ∧
    (puz_unlock_core p code).2.scrambled_cksum = p.scrambled_cksum := by
  have hq : (puz_unlock_core p code).2 = p := (unlock_core_cases p code).resolve_left h
  exact ⟨hq, by rw [hq], by rw [hq], by rw [hq]⟩

/-- C10 witness: unlocking an unlocked puzzle returns 1 and changes nothing. -/
theorem claim_C10_witness :
    (puz_unlock_core example_unlocked 1111).1 ≠ 0 ∧
    ((puz_unlock_core example_unlocked 1111).2 = example_unlocked ∧
    (puz_unlock_core example_unlocked 1111).2.solution = example_unlocked.solution ∧
    (puz_unlock_core example_unlocked 1111).2.scrambled_tag = example_unlocked.scrambled_tag ∧
    (puz_unlock_core example_unlocked 1111).2.scrambled_cksum = example_unlocked.scrambled_cksum) :=
  ⟨by decide, claim_C10_failure_preserves_state example_unlocked 1111 (by decide)⟩

theorem cksum_region_nil (ck : Nat) : puz_cksum_region [] ck = ck := rfl

theorem cksum_region_flatten (ls : List (List Nat)) :
    ∀ ck : Nat, puz_cksum_region ls.flatten ck =
      ls.foldl (fun c x => puz_cksum_region x c) ck := by
  induction ls with
  | nil => intro ck; rfl
  | cons x xs ih =>
    intro ck
    rw [List.flatten_cons, cksum_region_append, ih, List.foldl_cons]

theorem foldl_region_str_to_nul (ls : List (List Nat)) (h : ∀ c ∈ ls, ∀ b ∈ c, b ≠ 0) :
    ∀ ck : Nat, ls.foldl (fun c x => puz_cksum_region (str_to_nul x) c) ck =
      ls.foldl (fun c x => puz_cksum_region x c) ck := by
  induction ls with
  | nil => intro ck; rfl
  | cons x xs ih =>
    intro ck
    rw [List.foldl_cons, List.foldl_cons,
      str_to_nul_of_no_zero x (h x (List.mem_cons_self x xs))]
    exact ih (fun c hc => h c (List.mem_cons_of_mem x hc)) _

theorem region_piece (cond : Prop) [Decidable cond] (x : List Nat) (ck : Nat) :
    puz_cksum_region (if cond then x ++ [0] else []) ck =
      if cond then puz_cksum_region (x ++ [0]) ck else ck := by
  by_cases h : cond
  · rw [if_pos h, if_pos h]
  · rw [if_neg h, if_neg h, cksum_region_nil]

/-- The secondary checksum of cksum.c equals the single rotate-and-sum run
over the concatenated pieces that the spec describes, for puzzles whose
strings have no interior NULs and whose clue array matches `clue_count`. -/
theorem puz_cksum2_eq_spec (p : Puzzle)
    (htitle : ∀ b ∈ p.title, b ≠ 0) (hauthor : ∀ b ∈ p.author, b ≠ 0)
    (hcopy : ∀ b ∈ p.copyright, b ≠ 0) (hnotes : ∀ b ∈ p.notes, b ≠ 0)
    (hclues : ∀ c ∈ p.clues, ∀ b ∈ c, b ≠ 0)
    (hcc : p.clues.length = p.clue_count) :
    puz_cksum2 p 0 = spec_cksum2 p := by
  simp only [puz_cksum2, spec_cksum2]
  rw [cksum_region_append, cksum_region_append, cksum_region_append, cksum_region_append]
  rw [cksum_region_flatten]
  rw [region_piece, region_piece, region_piece, region_piece]
  rw [← hcc, range_foldl_getD p.clues [] (fun c x => puz_cksum_region (str_to_nul x) c)]
  rw [foldl_region_str_to_nul p.clues hclues]
  rw [str_with_nul_of_no_zero _ htitle, str_with_nul_of_no_zero _ hauthor,
    str_with_nul_of_no_zero _ hcopy, str_with_nul_of_no_zero _ hnotes]
  rw [cstrlen_of_no_zero _ htitle, cstrlen_of_no_zero _ hauthor,
    cstrlen_of_no_zero _ hcopy, cstrlen_of_no_zero _ hnotes]
  simp only [gt_iff_lt, List.length_pos]

/-- The stored calculated magic bytes come from `magic_gen_10` applied to
the four sums in the order cib, solution, grid, secondary. -/
theorem cksums_calc_magic10 (p : Puzzle) :
    (puz_cksums_calc p).calc_magic10 =
      magic_gen_10 [puz_cksum_region (cib_bytes p) 0,
        puz_cksum_region (p.solution.take (p.width * p.height)) 0,
        puz_cksum_region (p.grid.take (p.width * p.height)) 0,
        puz_cksum2 p 0] := by
  simp only [puz_cksums_calc]
  split <;> split <;> split <;> split <;> rfl

/-- Companion to `cksums_calc_magic10` for the high-byte vector. -/
theorem cksums_calc_magic14 (p : Puzzle) :
    (puz_cksums_calc p).calc_magic14 =
      magic_gen_14 [puz_cksum_region (cib_bytes p) 0,
        puz_cksum_region (p.solution.take (p.width * p.height)) 0,
        puz_cksum_region (p.grid.take (p.width * p.height)) 0,
        puz_cksum2 p 0] := by
  simp only [puz_cksums_calc]
  split <;> split <;> split <;> split <;> rfl

/-- C1: after `puz_cksums_calc`, the calculated magic bytes satisfy
`calc_magic10[i] = (sums[i] and 0xFF) xor ICHE[i]` and
`calc_magic14[i] = (sums[i] shr 8) xor ATED[i]` with
`sums = [cib, sol_sum, grid_sum, cksum2]` exactly as the claim lists them,
for puzzles whose boards have length `W*H` and whose strings carry no
interior NULs. -/
theorem claim_C1_magic_bytes (p : Puzzle)
    (hsol : p.solution.length = p.width * p.height)
    (hgrid : p.grid.length = p.width * p.height)
    (htitle : ∀ b ∈ p.title, b ≠ 0) (hauthor : ∀ b ∈ p.author, b ≠ 0)
    (hcopy : ∀ b ∈ p.copyright, b ≠ 0) (hnotes : ∀ b ∈ p.notes, b ≠ 0)
    (hclues : ∀ c ∈ p.clues, ∀ b ∈ c, b ≠ 0)
    (hcc : p.clues.length = p.clue_count) :
    ∀ i, i < 4 →
      (puz_cksums_calc p).calc_magic10.getD i 0 =
        ((spec_sums p).getD i 0 % 256) ^^^ magic_10_mask.getD i 0 ∧
      (puz_cksums_calc p).calc_magic14.getD i 0 =
        ((spec_sums p).getD i 0 / 256 % 256) ^^^ magic_14_mask.getD i 0 := by
  have e2 : puz_cksum2 p 0 = spec_cksum2 p :=
    puz_cksum2_eq_spec p htitle hauthor hcopy hnotes hclues hcc
  have esol : p.solution.take (p.width * p.height) = p.solution := by
    rw [← hsol, List.take_length]
  have egrid : p.grid.take (p.width * p.height) = p.grid := by
    rw [← hgrid, List.take_length]
  have h10 := cksums_calc_magic10 p
  have h14 := cksums_calc_magic14 p
  rw [e2, esol, egrid] at h10 h14
  intro i hi
  interval_cases i <;>
    simp [h10, h14, magic_gen_10, magic_gen_14, spec_sums, List.getD]

/-- C1 witness: a concrete 2 by 2 puzzle exercising every hypothesis. -/
theorem claim_C1_witness :
    (example_c1.solution.length = example_c1.width * example_c1.height ∧
      example_c1.grid.length = example_c1.width * example_c1.height ∧
      example_c1.clues.length = example_c1.clue_count) ∧
    ((puz_cksums_calc example_c1).calc_magic10.getD 0 0 =
        ((spec_sums example_c1).getD 0 0 % 256) ^^^ magic_10_mask.getD 0 0 ∧
      (puz_cksums_calc example_c1).calc_magic14.getD 0 0 =
        ((spec_sums example_c1).getD 0 0 / 256 % 256) ^^^ magic_14_mask.getD 0 0) :=
  ⟨by decide,
    claim_C1_magic_bytes example_c1 (by decide) (by decide) (by decide) (by decide)
      (by decide) (by decide) (by decide) (by decide) 0 (by decide)⟩

theorem foldl_add_map {α : Type} (g : α → Nat) (ls : List α) :
    ∀ a : Nat, ls.foldl (fun s c => s + g c) a = a + (ls.map g).sum := by
  induction ls with
  | nil => intro a; simp
  | cons x xs ih =>
    intro a
    rw [List.foldl_cons, ih, List.map_cons, List.sum_cons]
    omega

theorem foldl_append2_length {α : Type} (g h : α → List Nat) (ls : List α) :
    ∀ a : List Nat, (ls.foldl (fun acc c => acc ++ g c ++ h c) a).length =
      a.length + (ls.map (fun c => (g c).length + (h c).length)).sum := by
  induction ls with
  | nil => intro a; simp
  | cons x xs ih =>
    intro a
    rw [List.foldl_cons, ih, List.map_cons, List.sum_cons]
    simp [List.length_append]
    omega

/-- The length of the serialized rebus table: one byte per entry character
plus one semicolon per entry. -/
theorem rtblstr_length (p : Puzzle) (hrtbl : (p.rtbl.getD []).length = p.rtbl_sz) :
    (puz_rtblstr_get p).length = ((p.rtbl.getD []).map (fun c => cstrlen c + 1)).sum := by
  unfold puz_rtblstr_get
  rw [← hrtbl,
    range_foldl_getD (p.rtbl.getD []) [] (fun acc c => acc ++ str_to_nul c ++ [59])]
  rw [foldl_append2_length str_to_nul (fun _ => [59]) (p.rtbl.getD []) []]
  simp [cstrlen, str_to_nul]

/-- C7: `puz_size` computes exactly the serialized length the spec states,
for every non-null puzzle whose metadata strings have no interior NULs and
whose clue and rebus-table arrays match their recorded counts. -/
theorem claim_C7_puz_size (p : Puzzle)
    (htitle : ∀ b ∈ p.title, b ≠ 0) (hauthor : ∀ b ∈ p.author, b ≠ 0)
    (hcopy : ∀ b ∈ p.copyright, b ≠ 0)
    (hclues : ∀ c ∈ p.clues, ∀ b ∈ c, b ≠ 0)
    (hcc : p.clues.length = p.clue_count)
    (hrtbl : (p.rtbl.getD []).length = p.rtbl_sz)
    (hltim : ∀ b ∈ p.ltim.getD [], b ≠ 0) :
    puz_size (some p) = (spec_size p : Int) := by
  suffices h : puz_size_core p = spec_size p by
    show (puz_size_core p : Int) = (spec_size p : Int)
    exact_mod_cast h
  have hclue_fold :
      (List.range p.clue_count).foldl (fun s i => s + (cstrlen (p.clues.getD i []) + 1)) 0 =
        (p.clues.map (fun c => c.length + 1)).sum := by
    rw [← hcc, range_foldl_getD p.clues [] (fun s c => s + (cstrlen c + 1)),
      foldl_add_map (fun c => cstrlen c + 1) p.clues 0]
    rw [List.map_congr_left (fun c hc => by rw [cstrlen_of_no_zero c (hclues c hc)])]
    omega
  have hrt_fold :
      (List.range p.rtbl_sz).foldl
          (fun s i => s + (cstrlen ((p.rtbl.getD []).getD i []) + 1)) 0 =
        (puz_rtblstr_get p).length := by
    rw [rtblstr_length p hrtbl, ← hrtbl,
      range_foldl_getD (p.rtbl.getD []) [] (fun s c => s + (cstrlen c + 1)),
      foldl_add_map (fun c => cstrlen c + 1) (p.rtbl.getD []) 0]
    omega
  have hti := cstrlen_of_no_zero _ htitle
  have hau := cstrlen_of_no_zero _ hauthor
  have hco := cstrlen_of_no_zero _ hcopy
  have hlt := cstrlen_of_no_zero _ hltim
  simp only [puz_size_core, spec_size, hclue_fold, hti, hau, hco, hlt]
  split_ifs <;> (try rw [hrt_fold]) <;>
    (generalize p.width * p.height = A) <;> omega

/-- C7 witness: the 2 by 2 example with rebus, timer, extras and user-rebus
sections all absent is sized by the same formula. -/
theorem claim_C7_witness :
    puz_size (some example_c1) = (spec_size example_c1 : Int) :=
  claim_C7_puz_size example_c1 (by decide) (by decide) (by decide) (by decide)
    (by decide) (by decide) (by decide)

theorem map_range_getD (f : Nat → Nat) (n p : Nat) (hp : p < n) :
    ((List.range n).map f).getD p 0 = f p := by
  rw [List.getD_eq_getElem?_getD, List.getElem?_map, List.getElem?_range hp]
  rfl

theorem unscramble_pure_length (t : List Nat) : (unscramble_pure t).length = t.length := by
  unfold unscramble_pure
  rw [List.length_map, List.length_range]

theorem strncpy_into_length (dest : List Nat) (off : Nat) (src : List Nat) (n : Nat) :
    (strncpy_into dest off src n).length = dest.length := by
  unfold strncpy_into
  exact write_loop_length _ _ _ _

theorem strncpy_into_getD_in (dest : List Nat) (off : Nat) (src : List Nat) (n : Nat)
    (p : Nat) (hp1 : off ≤ p) (hp2 : p < off + n) (hlt : p < dest.length) :
    (strncpy_into dest off src n).getD p 0 =
      if p - off < cstrlen src then src.getD (p - off) 0 else 0 := by
  unfold strncpy_into
  exact write_loop_getD_at dest _ _ n (p - off) p (by omega)
    (by show off + (p - off) = p; omega) hlt
    (by intro j hj hh
        have hh2 : off + j = p := hh
        omega)

theorem strncpy_into_getD_out (dest : List Nat) (off : Nat) (src : List Nat) (n : Nat)
    (p : Nat) (hp : p < off ∨ off + n ≤ p) :
    (strncpy_into dest off src n).getD p 0 = dest.getD p 0 := by
  unfold strncpy_into
  apply write_loop_getD_untouched
  intro j hj
  show off + j ≠ p
  omega

/-- Applying `unscramble_string` to a NUL-terminated buffer of non-zero bytes
computes exactly the value-level `unscramble_pure` of the content. -/
theorem unscramble_string_spec (u out : List Nat) (hu : ∀ b ∈ u, b ≠ 0)
    (hout : out.length = u.length + 1) :
    unscramble_string (u ++ [0]) out = unscramble_pure u ++ [0] := by
  have hlen : cstrlen (u ++ [0]) = u.length := cstrlen_append_zero u hu
  unfold unscramble_string
  rw [hlen]
  apply list_ext_getD
  · rw [List.length_set, write_loop_length, hout, List.length_append, unscramble_pure_length]
    rfl
  · intro pos hpos
    rw [List.length_set, write_loop_length, hout] at hpos
    by_cases hpn : pos = u.length
    · subst hpn
      rw [getD_set_eq _ _ _ (by rw [write_loop_length]; omega)]
      rw [getD_append_right _ _ _ (by rw [unscramble_pure_length])]
      rw [unscramble_pure_length]
      simp
    · have hposlt : pos < u.length := by omega
      rw [getD_set_ne _ _ _ _ (fun h => hpn h.symm)]
      rw [getD_append_left _ _ _ (by rw [unscramble_pure_length]; exact hposlt)]
      unfold unscramble_pure
      rw [map_range_getD _ _ _ hposlt]
      by_cases htop : pos < u.length / 2
      · rw [if_pos htop]
        rw [write_loop_getD_at out _ _ u.length (2 * pos + 1) pos (by omega)
          (by show (if (2 * pos + 1) % 2 = 0 then u.length / 2 + (2 * pos + 1) / 2
                else (2 * pos + 1) / 2) = pos
              rw [if_neg (by omega)]
              omega)
          (by omega)
          (by intro j hj hh
              have hh2 : (if j % 2 = 0 then u.length / 2 + j / 2 else j / 2) = pos := hh
              by_cases h2 : j % 2 = 0
              · rw [if_pos h2] at hh2; omega
              · rw [if_neg h2] at hh2; omega)]
        show (u ++ [0]).getD (2 * pos + 1) 0 = u.getD (2 * pos + 1) 0
        exact getD_append_left _ _ _ (by omega)
      · rw [if_neg htop]
        rw [write_loop_getD_at out _ _ u.length (2 * (pos - u.length / 2)) pos (by omega)
          (by show (if (2 * (pos - u.length / 2)) % 2 = 0 then
                u.length / 2 + (2 * (pos - u.length / 2)) / 2
                else (2 * (pos - u.length / 2)) / 2) = pos
              rw [if_pos (by omega)]
              omega)
          (by omega)
          (by intro j hj hh
              have hh2 : (if j % 2 = 0 then u.length / 2 + j / 2 else j / 2) = pos := hh
              by_cases h2 : j % 2 = 0
              · rw [if_pos h2] at hh2; omega
              · rw [if_neg h2] at hh2; omega)]
        show (u ++ [0]).getD (2 * (pos - u.length / 2)) 0 =
          u.getD (2 * (pos - u.length / 2)) 0
        exact getD_append_left _ _ _ (by omega)

/-- Applying `unshift_string` to a NUL-terminated buffer of non-zero bytes with
a shift bounded by the length computes `unshift_pure` of the content. -/
theorem unshift_string_spec (v : List Nat) (k : Nat) (out : List Nat)
    (hv : ∀ b ∈ v, b ≠ 0) (hk : k ≤ v.length) (hout : out.length = v.length + 1) :
    unshift_string (v ++ [0]) k out = some (unshift_pure v k ++ [0]) := by
  have hlen : cstrlen (v ++ [0]) = v.length := cstrlen_append_zero v hv
  unfold unshift_string
  rw [hlen, if_neg (by omega)]
  congr 1
  have hdrop : (v ++ [0]).drop (v.length - k) = v.drop (v.length - k) ++ [0] := by
    rw [List.drop_append_of_le_length (by omega)]
  have hdlen : (v.drop (v.length - k)).length = k := by
    rw [List.length_drop]
    omega
  have hdnz : ∀ b ∈ v.drop (v.length - k), b ≠ 0 :=
    fun b hb => hv b (List.mem_of_mem_drop hb)
  have hclen2 : cstrlen ((v ++ [0]).drop (v.length - k)) = k := by
    rw [hdrop, cstrlen_append_zero _ hdnz, hdlen]
  have hlen1 : (strncpy_into out k (v ++ [0]) (v.length - k)).length = out.length :=
    strncpy_into_length _ _ _ _
  have hlen2 : (strncpy_into (strncpy_into out k (v ++ [0]) (v.length - k)) 0
      ((v ++ [0]).drop (v.length - k)) k).length = out.length := by
    rw [strncpy_into_length, hlen1]
  have hplen : (unshift_pure v k).length = v.length := by
    unfold unshift_pure
    rw [List.length_append, List.length_drop, List.length_take]
    omega
  apply list_ext_getD
  · rw [List.length_set, hlen2, hout, List.length_append, hplen]
    rfl
  · intro pos hpos
    rw [List.length_set, hlen2, hout] at hpos
    by_cases hpn : pos = v.length
    · subst hpn
      rw [getD_set_eq _ _ _ (by rw [hlen2]; omega)]
      rw [getD_append_right _ _ _ (by omega), hplen]
      simp
    · have hposlt : pos < v.length := by omega
      rw [getD_set_ne _ _ _ _ (fun h => hpn h.symm)]
      rw [getD_append_left _ _ _ (by omega)]
      by_cases hpk : pos < k
      · rw [strncpy_into_getD_in _ _ _ _ _ (by omega) (by omega) (by rw [hlen1]; omega)]
        rw [if_pos (by rw [hclen2]; omega)]
        rw [Nat.sub_zero, hdrop, getD_append_left _ _ _ (by omega)]
        unfold unshift_pure
        rw [getD_append_left _ _ _ (by rw [List.length_drop]; omega)]
      · rw [strncpy_into_getD_out _ _ _ _ _ (by omega)]
        rw [strncpy_into_getD_in _ _ _ _ _ (by omega) (by omega) (by rw [hout]; omega)]
        rw [if_pos (by rw [hlen]; omega)]
        rw [getD_append_left _ _ _ (by omega)]
        unfold unshift_pure
        rw [getD_append_right _ _ _ (by rw [List.length_drop]; omega)]
        rw [List.length_drop]
        rw [getD_take _ _ _ (by omega) (by omega)]
        congr 1
        omega

/-- The subtraction pass over a NUL-terminated buffer is the pointwise
`subtract_pure` of the content. -/
theorem subtract_loop_spec (ds u : List Nat) :
    subtract_loop ds u.length (u ++ [0]) = subtract_pure ds u ++ [0] := by
  unfold subtract_loop
  have hplen : (subtract_pure ds u).length = u.length := by
    unfold subtract_pure
    rw [List.length_map, List.length_range]
  apply list_ext_getD
  · rw [update_loop_length, List.length_append, List.length_append, hplen]
  · intro pos hpos
    rw [update_loop_length, List.length_append] at hpos
    rw [update_loop_getD _ _ _ (by simp) pos]
    by_cases hpl : pos < u.length
    · rw [if_pos hpl, getD_append_left _ _ _ hpl, getD_append_left _ _ _ (by omega)]
      unfold subtract_pure
      rw [map_range_getD _ _ _ hpl]
    · rw [if_neg hpl]
      have hpn : pos = u.length := by simp at hpos; omega
      subst hpn
      rw [getD_append_right _ _ _ (by omega), getD_append_right _ _ _ (by omega), hplen]

theorem scramble_step_length (t : List Nat) : (scramble_step t).length = t.length := by
  unfold scramble_step
  rw [List.length_map, List.length_range]

/-- The unscramble pass inverts the interleaving scramble step of the
puzzle.c comment (second half at even positions, first half at odd ones). -/
theorem unscramble_scramble (t : List Nat) : unscramble_pure (scramble_step t) = t := by
  apply list_ext_getD
  · rw [unscramble_pure_length, scramble_step_length]
  · intro pos hpos
    rw [unscramble_pure_length, scramble_step_length] at hpos
    unfold unscramble_pure
    rw [map_range_getD _ _ _ (by rw [scramble_step_length]; exact hpos)]
    rw [scramble_step_length]
    unfold scramble_step
    by_cases htop : pos < t.length / 2
    · rw [if_pos htop]
      rw [map_range_getD _ _ _ (by omega)]
      show t.getD (if (2 * pos + 1) % 2 = 0 then t.length / 2 + (2 * pos + 1) / 2
        else (2 * pos + 1) / 2) 0 = t.getD pos 0
      rw [if_neg (by omega)]
      congr 1
      omega
    · rw [if_neg htop]
      rw [map_range_getD _ _ _ (by omega)]
      show t.getD (if (2 * (pos - t.length / 2)) % 2 = 0 then
        t.length / 2 + (2 * (pos - t.length / 2)) / 2
        else (2 * (pos - t.length / 2)) / 2) 0 = t.getD pos 0
      rw [if_pos (by omega)]
      congr 1
      omega

/-- The unshift pass inverts the prefix-to-end shift. -/
theorem unshift_shift (t : List Nat) (k : Nat) (hk : k ≤ t.length) :
    unshift_pure (shift_by t k) k = t := by
  unfold unshift_pure shift_by
  have h1 : (t.drop k ++ t.take k).length = t.length := by
    rw [List.length_append, List.length_drop, List.length_take]
    omega
  rw [h1]
  rw [List.drop_left' (by rw [List.length_drop]),
    List.take_left' (by rw [List.length_drop])]
  exact List.take_append_drop k t

/-- C4 counterexample: with the scramble step worded as in the spec
(store `t[i]` at `L/2 + i/2` for even `i`, at `i/2` for odd `i`),
scramble-then-unscramble is not the identity on ABCD: the stored scramble of
ABCD is BDAC and `unscramble_string` maps it to DCBA. -/
theorem claim_C4_counterexample :
    spec_scramble_step [65, 66, 67, 68] = [66, 68, 65, 67] ∧
    ¬ (unscramble_string (spec_scramble_step [65, 66, 67, 68] ++ [0])
        (List.replicate 5 0) = [65, 66, 67, 68] ++ [0]) := by
  refine ⟨by decide, by decide⟩

/-- C4 as amended: the scramble step that `unscramble_string` actually
inverts reads `t[L/2 + i/2]` at even `i` and `t[i/2]` at odd `i` (the
assignments of the spec wording reversed); with that scramble step,
scramble-then-unscramble is the identity on every string over A..Z of
length at least 2, and shift-then-unshift by any `k` up to the length is the
identity as the claim states. -/
theorem claim_C4_amended (t : List Nat) (hAZ : ∀ b ∈ t, 65 ≤ b ∧ b ≤ 90)
    (hlen2 : 2 ≤ t.length) (k : Nat) (hk : k ≤ t.length) :
    unscramble_string (scramble_step t ++ [0]) (List.replicate (t.length + 1) 0) =
      t ++ [0] ∧
    unshift_string (shift_by t k ++ [0]) k (List.replicate (t.length + 1) 0) =
      some (t ++ [0]) := by
  have hnz : ∀ b ∈ t, b ≠ 0 := fun b hb => by have := hAZ b hb; omega
  have hs_nz : ∀ b ∈ scramble_step t, b ≠ 0 := by
    intro b hb
    unfold scramble_step at hb
    rw [List.mem_map] at hb
    obtain ⟨i, hi, hbe⟩ := hb
    rw [List.mem_range] at hi
    subst hbe
    apply hnz
    apply getD_mem_of_lt
    by_cases h2 : i % 2 = 0
    · rw [if_pos h2]; omega
    · rw [if_neg h2]; omega
  constructor
  · rw [unscramble_string_spec (scramble_step t) _ hs_nz
      (by rw [List.length_replicate, scramble_step_length])]
    rw [unscramble_scramble]
  · have hshift_len : (shift_by t k).length = t.length := by
      unfold shift_by
      rw [List.length_append, List.length_drop, List.length_take]
      omega
    have hshift_nz : ∀ b ∈ shift_by t k, b ≠ 0 := by
      intro b hb
      apply hnz
      unfold shift_by at hb
      rw [List.mem_append] at hb
      cases hb with
      | inl h => exact List.mem_of_mem_drop h
      | inr h => exact List.mem_of_mem_take h
    rw [unshift_string_spec (shift_by t k) k _ hshift_nz (by omega)
      (by rw [List.length_replicate, hshift_len])]
    rw [unshift_shift t k hk]

/-- C4 witness: the amended round trip at the concrete string ABCD, shift 1. -/
theorem claim_C4_witness :
    ((∀ b ∈ ([65, 66, 67, 68] : List Nat), 65 ≤ b ∧ b ≤ 90) ∧
      2 ≤ ([65, 66, 67, 68] : List Nat).length ∧
      1 ≤ ([65, 66, 67, 68] : List Nat).length) ∧
    (unscramble_string (scramble_step [65, 66, 67, 68] ++ [0]) (List.replicate 5 0) =
        [65, 66, 67, 68] ++ [0] ∧
      unshift_string (shift_by [65, 66, 67, 68] 1 ++ [0]) 1 (List.replicate 5 0) =
        some ([65, 66, 67, 68] ++ [0])) :=
  ⟨by decide,
    claim_C4_amended [65, 66, 67, 68] (by decide) (by decide) 1 (by decide)⟩

theorem unscramble_pure_mem (t : List Nat) (b : Nat) (hb : b ∈ unscramble_pure t) :
    b ∈ t := by
  unfold unscramble_pure at hb
  rw [List.mem_map] at hb
  obtain ⟨j, hj, hbe⟩ := hb
  rw [List.mem_range] at hj
  subst hbe
  apply getD_mem_of_lt
  by_cases h2 : j < t.length / 2
  · rw [if_pos h2]; omega
  · rw [if_neg h2]; omega

theorem unshift_pure_mem (t : List Nat) (k : Nat) (b : Nat) (hb : b ∈ unshift_pure t k) :
    b ∈ t := by
  unfold unshift_pure at hb
  rw [List.mem_append] at hb
  cases hb with
  | inl h => exact List.mem_of_mem_drop h
  | inr h => exact List.mem_of_mem_take h

theorem unshift_pure_length (t : List Nat) (k : Nat) : (unshift_pure t k).length = t.length := by
  unfold unshift_pure
  rw [List.length_append, List.length_drop, List.length_take]
  omega

theorem subtract_pure_length (ds t : List Nat) : (subtract_pure ds t).length = t.length := by
  unfold subtract_pure
  rw [List.length_map, List.length_range]

theorem unlock_char_step_range (c d : Nat) (hc : 65 ≤ c ∧ c ≤ 90) (hd : 1 ≤ d ∧ d ≤ 9) :
    65 ≤ unlock_char_step c d ∧ unlock_char_step c d ≤ 90 := by
  simp only [unlock_char_step]
  split <;> omega

theorem subtract_pure_range (ds t : List Nat)
    (hds : ∀ j, j < 4 → 1 ≤ ds.getD j 0 ∧ ds.getD j 0 ≤ 9)
    (ht : ∀ b ∈ t, 65 ≤ b ∧ b ≤ 90) :
    ∀ b ∈ subtract_pure ds t, 65 ≤ b ∧ b ≤ 90 := by
  intro b hb
  unfold subtract_pure at hb
  rw [List.mem_map] at hb
  obtain ⟨j, hj, hbe⟩ := hb
  rw [List.mem_range] at hj
  subst hbe
  exact unlock_char_step_range _ _ (ht _ (getD_mem_of_lt t j hj)) (hds (j % 4) (by omega))

theorem strncpy_fresh (s : List Nat) (hs : ∀ b ∈ s, b ≠ 0) :
    strncpy_into (List.replicate (s.length + 1) 0) 0 s (s.length + 1) = s ++ [0] := by
  apply list_ext_getD
  · rw [strncpy_into_length, List.length_replicate, List.length_append]
    rfl
  · intro pos hpos
    rw [strncpy_into_length, List.length_replicate] at hpos
    rw [strncpy_into_getD_in _ _ _ _ _ (by omega) (by omega)
      (by rw [List.length_replicate]; omega)]
    rw [Nat.sub_zero, cstrlen_of_no_zero s hs]
    by_cases hp : pos < s.length
    · rw [if_pos hp]
      exact (getD_append_left _ _ _ hp).symm
    · rw [if_neg hp]
      have hpe : pos = s.length := by omega
      subst hpe
      rw [getD_append_right _ _ _ (by omega)]
      simp

/-- One unlock round on a workspace holding an A..Z string: no -4 error, and
the workspaces afterwards hold the pure unscramble/unshift/subtract result
and the intermediate unscramble output. -/
theorem unlock_round_spec (ds : List Nat) (len : Nat) (i : Nat) (u w2 : List Nat)
    (hu_len : u.length = len) (hu_rng : ∀ b ∈ u, 65 ≤ b ∧ b ≤ 90)
    (hw2 : w2.length = len + 1)
    (hds : ∀ j, j < 4 → 1 ≤ ds.getD j 0 ∧ ds.getD j 0 ≤ 9)
    (hdi : ds.getD i 0 ≤ len) :
    unlock_round ds len i (u ++ [0], w2) =
      some ((subtract_pure ds (unshift_pure (unscramble_pure u) (ds.getD i 0))) ++ [0],
        unscramble_pure u ++ [0]) ∧
    (subtract_pure ds (unshift_pure (unscramble_pure u) (ds.getD i 0))).length = len ∧
    (∀ b ∈ subtract_pure ds (unshift_pure (unscramble_pure u) (ds.getD i 0)),
      65 ≤ b ∧ b ≤ 90) := by
  have hu_nz : ∀ b ∈ u, b ≠ 0 := fun b hb => by have := hu_rng b hb; omega
  have hup_rng : ∀ b ∈ unscramble_pure u, 65 ≤ b ∧ b ≤ 90 :=
    fun b hb => hu_rng b (unscramble_pure_mem u b hb)
  have hup_nz : ∀ b ∈ unscramble_pure u, b ≠ 0 := fun b hb => by have := hup_rng b hb; omega
  have hup_len : (unscramble_pure u).length = u.length := unscramble_pure_length u
  have hsh_rng : ∀ b ∈ unshift_pure (unscramble_pure u) (ds.getD i 0), 65 ≤ b ∧ b ≤ 90 :=
    fun b hb => hup_rng b (unshift_pure_mem _ _ b hb)
  have hsh_len : (unshift_pure (unscramble_pure u) (ds.getD i 0)).length = len := by
    rw [unshift_pure_length, hup_len, hu_len]
  refine ⟨?_, ?_, ?_⟩
  · unfold unlock_round
    rw [unscramble_string_spec u w2 hu_nz (by omega)]
    show (match unshift_string (unscramble_pure u ++ [0]) (ds.getD i 0) (u ++ [0]) with
      | none => none
      | some w1 => some (subtract_loop ds len w1, unscramble_pure u ++ [0])) = _
    rw [unshift_string_spec (unscramble_pure u) (ds.getD i 0) (u ++ [0]) hup_nz
      (by omega) (by rw [List.length_append, hup_len]; rfl)]
    show some (subtract_loop ds len (unshift_pure (unscramble_pure u) (ds.getD i 0) ++ [0]),
      unscramble_pure u ++ [0]) = _
    have hsub := subtract_loop_spec ds (unshift_pure (unscramble_pure u) (ds.getD i 0))
    rw [hsh_len] at hsub
    rw [hsub]
  · rw [subtract_pure_length, hsh_len]
  · exact subtract_pure_range ds _ hds hsh_rng

/-- Folding unlock rounds over any list of digit indices below 4 never
fails and computes the pure decode fold, keeping the A..Z range and the
lengths of both workspaces. -/
theorem unlock_rounds_fold_spec (ds : List Nat) (len : Nat)
    (hds : ∀ j, j < 4 → 1 ≤ ds.getD j 0 ∧ ds.getD j 0 ≤ 9)
    (hdl : ∀ j, j < 4 → ds.getD j 0 ≤ len) :
    ∀ (is : List Nat), (∀ i ∈ is, i < 4) →
    ∀ (u w2 : List Nat), u.length = len → (∀ b ∈ u, 65 ≤ b ∧ b ≤ 90) →
      w2.length = len + 1 →
      ∃ w2f : List Nat,
        is.foldl (fun st i => st.bind (unlock_round ds len i)) (some (u ++ [0], w2)) =
          some ((is.foldl (fun v i =>
              subtract_pure ds (unshift_pure (unscramble_pure v) (ds.getD i 0))) u) ++ [0],
            w2f) ∧
        w2f.length = len + 1 ∧
        (is.foldl (fun v i =>
          subtract_pure ds (unshift_pure (unscramble_pure v) (ds.getD i 0))) u).length = len ∧
        (∀ b ∈ is.foldl (fun v i =>
          subtract_pure ds (unshift_pure (unscramble_pure v) (ds.getD i 0))) u,
          65 ≤ b ∧ b ≤ 90) := by
  intro is
  induction is with
  | nil =>
    intro _ u w2 hu hrng hw2
    exact ⟨w2, rfl, hw2, hu, hrng⟩
  | cons i is ih =>
    intro his u w2 hu hrng hw2
    have hi4 : i < 4 := his i (List.mem_cons_self i is)
    obtain ⟨hstep, hlen1, hrng1⟩ :=
      unlock_round_spec ds len i u w2 hu hrng hw2 hds (hdl i hi4)
    obtain ⟨w2f, hfold, hw2f, hlen2, hrng2⟩ :=
      ih (fun j hj => his j (List.mem_cons_of_mem i hj))
        (subtract_pure ds (unshift_pure (unscramble_pure u) (ds.getD i 0)))
        (unscramble_pure u ++ [0]) hlen1 hrng1
        (by rw [List.length_append, unscramble_pure_length, hu]; rfl)
    refine ⟨w2f, ?_, hw2f, ?_, ?_⟩
    · simp only [List.foldl_cons]
      rw [Option.some_bind, hstep]
      exact hfold
    · simp only [List.foldl_cons]
      exact hlen2
    · simp only [List.foldl_cons]
      exact hrng2

theorem strip_dots_fold (u dst : List Nat) (hu : ∀ b ∈ u, b ≠ 46) :
    ∀ m, m ≤ u.length →
    (List.range m).foldl
      (fun (acc : List Nat × Nat) j =>
        if (u ++ [0]).getD j 0 ≠ 46 then (acc.1.set acc.2 ((u ++ [0]).getD j 0), acc.2 + 1)
        else acc) (dst, 0) =
    (write_loop dst m (fun j => j) (fun j => (u ++ [0]).getD j 0), m) := by
  intro m
  induction m with
  | zero => intro _; rfl
  | succ k ih =>
    intro hm
    rw [List.range_succ, List.foldl_append, ih (by omega)]
    simp only [List.foldl_cons, List.foldl_nil]
    rw [if_pos (by
      rw [getD_append_left _ _ _ (by omega)]
      exact hu _ (getD_mem_of_lt u k (by omega)))]
    rw [write_loop_succ]

/-- The dot-stripping pass on a dot-free decoded string copies the string:
its first `len` bytes are exactly the decoded content. -/
theorem strip_dots_take (u dst : List Nat) (hu46 : ∀ b ∈ u, b ≠ 46)
    (hdst : dst.length = u.length + 1) :
    (strip_dots (u ++ [0]) dst u.length).take u.length = u := by
  unfold strip_dots
  rw [strip_dots_fold u dst hu46 u.length (Nat.le_refl _)]
  show ((write_loop dst u.length (fun j => j)
    (fun j => (u ++ [0]).getD j 0)).set u.length 0).take u.length = u
  apply list_ext_getD
  · rw [List.length_take, List.length_set, write_loop_length, hdst]
    omega
  · intro pos hpos
    rw [List.length_take, List.length_set, write_loop_length, hdst] at hpos
    have hpu : pos < u.length := by omega
    rw [getD_take _ _ _ hpu (by rw [List.length_set, write_loop_length, hdst]; omega)]
    rw [getD_set_ne _ u.length pos 0 (by omega)]
    rw [write_loop_getD_at dst _ _ u.length pos pos hpu rfl (by omega)
      (fun j hj hh => hh)]
    show (u ++ [0]).getD pos 0 = u.getD pos 0
    exact getD_append_left _ _ _ hpu

theorem digitsOf_length (code : Nat) : (digitsOf code).length = 4 := rfl

theorem digitsOf_le9 (code : Nat) : ∀ d ∈ digitsOf code, d ≤ 9 := by
  intro d hd
  simp only [digitsOf, List.mem_cons, List.not_mem_nil, or_false] at hd
  rcases hd with h | h | h | h <;> subst h <;> omega

/-- The unlock result on a locked puzzle with a valid code and an A..Z
formatted solution: it is 0 or 2 exactly as the checksum of the pure decode
matches or misses the stored scrambled checksum. -/
theorem unlock_core_main (p : Puzzle) (code : Nat)
    (htag : p.scrambled_tag ≠ 0)
    (hnz : ∀ d ∈ digitsOf code, d ≠ 0)
    (hAZ : ∀ b ∈ formatted_solution p, 65 ≤ b ∧ b ≤ 90)
    (hdl : ∀ d ∈ digitsOf code, d ≤ (formatted_solution p).length) :
    (puz_unlock_core p code).1 =
      if puz_cksum_region (decode_spec (digitsOf code) (formatted_solution p)) 0 =
          p.scrambled_cksum then 0 else 2 := by
  have hfnz : ∀ b ∈ formatted_solution p, b ≠ 0 := fun b hb => by have := hAZ b hb; omega
  have hclen : cstrlen (formatted_solution p) = (formatted_solution p).length :=
    cstrlen_of_no_zero _ hfnz
  have h_any : ¬ ((digitsOf code).any (fun d => decide (d = 0)) = true) := by
    intro h
    rw [List.any_eq_true] at h
    obtain ⟨d, hd, hd0⟩ := h
    rw [decide_eq_true_eq] at hd0
    exact hnz d hd hd0
  have hmem4 : ∀ j, j < 4 → (digitsOf code).getD j 0 ∈ digitsOf code := by
    intro j hj
    exact getD_mem_of_lt _ j (by rw [digitsOf_length]; omega)
  have hds : ∀ j, j < 4 → 1 ≤ (digitsOf code).getD j 0 ∧ (digitsOf code).getD j 0 ≤ 9 := by
    intro j hj
    have hm := hmem4 j hj
    exact ⟨by have := hnz _ hm; omega, digitsOf_le9 code _ hm⟩
  have hdl4 : ∀ j, j < 4 → (digitsOf code).getD j 0 ≤ (formatted_solution p).length :=
    fun j hj => hdl _ (hmem4 j hj)
  obtain ⟨w2f, hrounds, hw2f, hUlen, hUrng⟩ :=
    unlock_rounds_fold_spec (digitsOf code) (formatted_solution p).length hds hdl4
      [3, 2, 1, 0] (by intro i hi; fin_cases hi <;> omega)
      (formatted_solution p) (List.replicate ((formatted_solution p).length + 1) 0)
      rfl hAZ (by rw [List.length_replicate])
  simp only [puz_unlock_core]
  rw [if_neg htag, if_neg h_any, hclen]
  rw [strncpy_fresh (formatted_solution p) hfnz]
  simp only [unlock_rounds]
  rw [hrounds]
  have hU46 : ∀ b ∈ [3, 2, 1, 0].foldl (fun v i => subtract_pure (digitsOf code)
      (unshift_pure (unscramble_pure v) ((digitsOf code).getD i 0)))
      (formatted_solution p), b ≠ 46 := by
    intro b hb
    have := hUrng b hb
    omega
  have hstrip := strip_dots_take
    ([3, 2, 1, 0].foldl (fun v i => subtract_pure (digitsOf code)
      (unshift_pure (unscramble_pure v) ((digitsOf code).getD i 0)))
      (formatted_solution p)) w2f hU46 (by rw [hw2f, hUlen])
  rw [hUlen] at hstrip
  show (if puz_cksum_region ((strip_dots _ _ _).take _) 0 ≠ p.scrambled_cksum
    then ((2 : Int), p) else _).1 = _
  rw [hstrip]
  have hdec : decode_spec (digitsOf code) (formatted_solution p) =
      [3, 2, 1, 0].foldl (fun v i => subtract_pure (digitsOf code)
        (unshift_pure (unscramble_pure v) ((digitsOf code).getD i 0)))
        (formatted_solution p) := rfl
  rw [hdec]
  by_cases hck : puz_cksum_region ([3, 2, 1, 0].foldl (fun v i =>
      subtract_pure (digitsOf code)
        (unshift_pure (unscramble_pure v) ((digitsOf code).getD i 0)))
      (formatted_solution p)) 0 = p.scrambled_cksum
  · rw [if_neg (by omega), if_pos hck]
  · rw [if_pos hck, if_neg hck]

/-- C2: the return codes of `puz_unlock_solution`: a NULL puzzle gives a
negative value; an unlocked puzzle gives 1; a code with a zero digit gives
the negative value -2; and on a locked puzzle with a valid code whose
formatted solution is A..Z (with every digit within the solution length, so
that no unshift fails), the result is 0 when the decoded candidate
solution checksums to `scrambled_cksum`, and 2 when it does not. -/
theorem claim_C2_unlock_return_codes (p : Puzzle) (code : Nat) :
    (puz_unlock_solution none code).1 < 0 ∧
    (p.scrambled_tag = 0 → (puz_unlock_core p code).1 = 1) ∧
    (p.scrambled_tag ≠ 0 → (∃ d ∈ digitsOf code, d = 0) →
      (puz_unlock_core p code).1 = -2 ∧ (puz_unlock_core p code).1 < 0) ∧
    (p.scrambled_tag ≠ 0 → (∀ d ∈ digitsOf code, d ≠ 0) →
      (∀ b ∈ formatted_solution p, 65 ≤ b ∧ b ≤ 90) →
      (∀ d ∈ digitsOf code, d ≤ (formatted_solution p).length) →
      ((puz_unlock_core p code).1 = 0 ↔
        puz_cksum_region (decode_spec (digitsOf code) (formatted_solution p)) 0 =
          p.scrambled_cksum) ∧
      ((puz_unlock_core p code).1 = 2 ↔
        puz_cksum_region (decode_spec (digitsOf code) (formatted_solution p)) 0 ≠
          p.scrambled_cksum)) := by
  refine ⟨by show (-1 : Int) < 0; decide, ?_, ?_, ?_⟩
  · intro h
    simp [puz_unlock_core, h]
  · intro htag hzd
    obtain ⟨d, hd, hd0⟩ := hzd
    have hany : (digitsOf code).any (fun d => decide (d = 0)) = true := by
      rw [List.any_eq_true]
      exact ⟨d, hd, by simp [hd0]⟩
    constructor
    · simp only [puz_unlock_core]
      rw [if_neg htag, if_pos hany]
    · simp only [puz_unlock_core]
      rw [if_neg htag, if_pos hany]
      show (-2 : Int) < 0
      decide
  · intro htag hnz hAZ hdl
    have hmain := unlock_core_main p code htag hnz hAZ hdl
    by_cases hck : puz_cksum_region (decode_spec (digitsOf code) (formatted_solution p)) 0 =
        p.scrambled_cksum
    · rw [hmain, if_pos hck]
      exact ⟨by simp [hck], by constructor <;> intro h <;> simp_all⟩
    · rw [hmain, if_neg hck]
      exact ⟨by constructor <;> intro h <;> simp_all, by simp [hck]⟩

/-- C2 witness: the locked 1 by 1 puzzle, code 1111, decodes to W with
checksum 87 and unlock returns 0. -/
theorem claim_C2_witness :
    (example_locked_1x1.scrambled_tag ≠ 0 ∧
      (∀ d ∈ digitsOf 1111, d ≠ 0) ∧
      (∀ b ∈ formatted_solution example_locked_1x1, 65 ≤ b ∧ b ≤ 90) ∧
      (∀ d ∈ digitsOf 1111, d ≤ (formatted_solution example_locked_1x1).length)) ∧
    (((puz_unlock_core example_locked_1x1 1111).1 = 0 ↔
        puz_cksum_region (decode_spec (digitsOf 1111)
          (formatted_solution example_locked_1x1)) 0 =
          example_locked_1x1.scrambled_cksum) ∧
      ((puz_unlock_core example_locked_1x1 1111).1 = 2 ↔
        puz_cksum_region (decode_spec (digitsOf 1111)
          (formatted_solution example_locked_1x1)) 0 ≠
          example_locked_1x1.scrambled_cksum)) :=
  ⟨⟨by decide, by decide, by decide, by decide⟩,
    (claim_C2_unlock_return_codes example_locked_1x1 1111).2.2.2
      (by decide) (by decide) (by decide) (by decide)⟩

/-- The brute-force loop returns the first code at which unlock succeeds:
earlier candidates fail and leave the puzzle unchanged. -/
theorem brute_loop_first_success (p : Puzzle) :
    ∀ (fuel code c : Nat), code + fuel = 10000 → code ≤ c → c < 10000 →
      (puz_unlock_core p c).1 = 0 →
      (∀ c2, code ≤ c2 → c2 < c → (puz_unlock_core p c2).1 ≠ 0) →
      (brute_loop fuel code p).1 = (c : Int) := by
  intro fuel
  induction fuel with
  | zero => intro code c h1 h2 h3 _ _; omega
  | succ m ih =>
    intro code c h1 h2 h3 hc hfirst
    simp only [brute_loop]
    by_cases hcc : code = c
    · subst hcc
      rw [if_pos hc]
    · have hfail : (puz_unlock_core p code).1 ≠ 0 := hfirst code (by omega) (by omega)
      rw [if_neg hfail]
      rw [(unlock_core_cases p code).resolve_left hfail]
      exact ih (code + 1) c (by omega) (by omega) h3 hc
        (fun c2 hl hr => hfirst c2 (by omega) hr)

/-- When every remaining candidate fails, the brute-force loop exhausts the
range and returns -3. -/
theorem brute_loop_all_fail (p : Puzzle) :
    ∀ (fuel code : Nat), code + fuel = 10000 →
      (∀ c, code ≤ c → c < 10000 → (puz_unlock_core p c).1 ≠ 0) →
      (brute_loop fuel code p).1 = -3 := by
  intro fuel
  induction fuel with
  | zero => intro code _ _; rfl
  | succ m ih =>
    intro code h1 hall
    simp only [brute_loop]
    have hfail : (puz_unlock_core p code).1 ≠ 0 := hall code (by omega) (by omega)
    rw [if_neg hfail]
    rw [(unlock_core_cases p code).resolve_left hfail]
    exact ih (code + 1) (by omega) (fun c hl hr => hall c (by omega) hr)

/-- C6: on a locked puzzle, `puz_brute_force_unlock` never succeeds on a
code with a zero digit, returns the first code in 1111..9999 on which
`puz_unlock_solution` returns 0 (a code without zero digits), and returns
the negative value -3 when no code in the range succeeds. -/
theorem claim_C6_brute_force (p : Puzzle) (c : Nat) (htag : p.scrambled_tag ≠ 0) :
    (∀ code, (∃ d ∈ digitsOf code, d = 0) → (puz_unlock_core p code).1 ≠ 0) ∧
    (1111 ≤ c → c < 10000 → (puz_unlock_core p c).1 = 0 →
      (∀ c2, 1111 ≤ c2 → c2 < c → (puz_unlock_core p c2).1 ≠ 0) →
      (puz_brute_force_unlock p).1 = (c : Int) ∧ ¬ (∃ d ∈ digitsOf c, d = 0)) ∧
    ((∀ code, 1111 ≤ code → code < 10000 → (puz_unlock_core p code).1 ≠ 0) →
      (puz_brute_force_unlock p).1 = -3 ∧ (puz_brute_force_unlock p).1 < 0) := by
  have hzero : ∀ code, (∃ d ∈ digitsOf code, d = 0) → (puz_unlock_core p code).1 ≠ 0 := by
    intro code hzd
    obtain ⟨d, hd, hd0⟩ := hzd
    have hany : (digitsOf code).any (fun d => decide (d = 0)) = true := by
      rw [List.any_eq_true]
      exact ⟨d, hd, by simp [hd0]⟩
    simp only [puz_unlock_core]
    rw [if_neg htag, if_pos hany]
    show (-2 : Int) ≠ 0
    decide
  refine ⟨hzero, ?_, ?_⟩
  · intro h1 h2 hc hfirst
    constructor
    · unfold puz_brute_force_unlock
      rw [if_neg htag]
      exact brute_loop_first_success p 8889 1111 c (by omega) h1 h2 hc hfirst
    · intro hzd
      exact hzero c hzd hc
  · intro hall
    have hm3 : (puz_brute_force_unlock p).1 = -3 := by
      unfold puz_brute_force_unlock
      rw [if_neg htag]
      exact brute_loop_all_fail p 8889 1111 (by omega) hall
    exact ⟨hm3, by rw [hm3]; decide⟩

/-- C6 witness: the locked 1 by 1 puzzle unlocks at the very first
candidate, so brute force returns 1111. -/
theorem claim_C6_witness :
    example_locked_1x1.scrambled_tag ≠ 0 ∧
    (puz_unlock_core example_locked_1x1 1111).1 = 0 ∧
    ((puz_brute_force_unlock example_locked_1x1).1 = (1111 : Int) ∧
      ¬ (∃ d ∈ digitsOf 1111, d = 0)) :=
  ⟨by decide, by decide,
    (claim_C6_brute_force example_locked_1x1 1111 (by decide)).2.1 (by decide) (by decide)
      (by decide) (by intro c2 h1 h2; omega)⟩

/-- C5: the GRBS/RTBL section behavior, evaluated on the concrete 1 by 1
inputs.  An all-zero rebus grid is discarded (the section advances its
2+1+1 bytes and the loaded puzzle reports no rebus, also through the whole
section loop).  A non-zero grid with no RTBL tag following makes
`load_grbs_bin` return 0 bytes, and the section loop then aborts the load —
but only when the loader allocated the puzzle itself (`didmalloc`); with a
caller-supplied puzzle the loop logs, skips the 6 header bytes and carries
on, and the load still returns a puzzle. -/
theorem claim_C5_grbs_rtbl :
    (load_grbs_bin example_1x1_board (grbs_zero_tail.drop 6)).1 = 4 ∧
    puz_has_rebus (load_grbs_bin example_1x1_board (grbs_zero_tail.drop 6)).2 = false ∧
    (section_loop 11 grbs_zero_tail 11 0 true example_1x1_board).isSome = true ∧
    puz_has_rebus ((section_loop 11 grbs_zero_tail 11 0 true
      example_1x1_board).getD example_1x1_board) = false ∧
    (load_grbs_bin example_1x1_board (grbs_missing_rtbl_tail.drop 6)).1 = 0 ∧
    section_loop 11 grbs_missing_rtbl_tail 11 0 true example_1x1_board = none ∧
    (section_loop 11 grbs_missing_rtbl_tail 11 0 false example_1x1_board).isSome = true := by
  refine ⟨by decide, by decide, by decide, by decide, by decide, by decide, by decide⟩

/-- C3: on the 3 by 2 board with solution ABCDEF the code walks
`sol[j*h + i]` and produces ACBDCE, while the claimed canonical order
`sol[y*W + x]` gives ADBECF: the source indexes with the height where the
spec requires the width (the bug spec.md section 9 flags). -/
theorem claim_C3_column_major_bug :
    formatted_solution example_3x2 = [65, 67, 66, 68, 67, 69] ∧
    canonical_solution example_3x2 = [65, 68, 66, 69, 67, 70] ∧
    formatted_solution example_3x2 ≠ canonical_solution example_3x2 := by
  refine ⟨by decide, by decide, by decide⟩

end Puz
